import Mathlib

/-!
# Verification of the 4-operator FM synthesis engine

Shallow embedding of the FM synthesis engine of `src/App.js`:
the `Operator` class (oscillator + envelope gain), the `FMSynth` class
(`setPatch`, `noteOn`, `noteOff`, the fixed algorithm routing), and the
patch import handler `handleImport` of the React `App` component.

Numbers are modelled over `ℚ` (times, gains, parameter values) except
oscillator frequencies, which involve `2 ^ ((note - 69) / 12)` and are
modelled over `ℝ`.

Web Audio `AudioParam` automation is modelled as an initial value plus a
time-ordered list of scheduled events (`setValueAtTime` /
`linearRampToValueAtTime`), with `cancelScheduledValues t` removing every
event whose time is `≥ t`, following the Web Audio specification.
-/

namespace FMSynthApp

/-- Oscillator waveform, the value of `osc.type`. -/
inductive Waveform
  | sine
  | square
  | sawtooth
  | triangle
deriving DecidableEq

/-- One element of `patch.operators`: the per-operator parameters. -/
structure OperatorParams where
  «on» : Bool
  ratio : ℚ
  detune : ℚ
  level : ℚ
  attack : ℚ
  decay : ℚ
  sustain : ℚ
  release : ℚ
  waveform : Waveform
deriving DecidableEq

/-- A patch as held by the engine: `algorithm`, `masterGain` and the
operator parameter list (length 4 in every patch the UI produces). -/
structure Patch where
  algorithm : ℤ
  masterGain : ℚ
  operators : List OperatorParams
deriving DecidableEq

/-- A scheduled Web Audio parameter event: `setValueAtTime value time` or
`linearRampToValueAtTime value time`. -/
inductive ParamEvent
  | setValue (value : ℚ) (time : ℚ)
  | linearRamp (value : ℚ) (time : ℚ)
deriving DecidableEq

/-- Scheduled time of an event. -/
def ParamEvent.time : ParamEvent → ℚ
  | .setValue _ t => t
  | .linearRamp _ t => t

/-- Target value of an event. -/
def ParamEvent.value : ParamEvent → ℚ
  | .setValue v _ => v
  | .linearRamp v _ => v

/-- A Web Audio `AudioParam`: its initial value and the time-ordered list
of scheduled automation events. -/
structure AudioParam where
  initial : ℚ
  events : List ParamEvent
deriving DecidableEq

/-- Value of the automation timeline at time `τ`, walking the event list
while carrying the value `v0` reached at time `t0`.  A `setValueAtTime`
event takes effect at its time; a `linearRampToValueAtTime` event
interpolates linearly from the previous point `(t0, v0)`. -/
def valueFrom (τ : ℚ) : ℚ → ℚ → List ParamEvent → ℚ
  | v0, _, [] => v0
  | v0, t0, e :: rest =>
    if τ < e.time then
      match e with
      | .setValue _ _ => v0
      | .linearRamp v1 t1 =>
        if τ ≤ t0 then v0 else v0 + (v1 - v0) * (τ - t0) / (t1 - t0)
    else valueFrom τ e.value e.time rest

/-- The param's current value as read by `param.value` at time `τ`: the
value most recently computed by the rendering thread from the event
timeline.  Reading `.value` on the control thread immediately after a
`cancelScheduledValues` call still observes the value rendered from the
timeline as it stood before the cancellation, so callers that capture the
current gain read it from the pre-cancellation timeline. -/
def AudioParam.valueAt (g : AudioParam) (τ : ℚ) : ℚ :=
  valueFrom τ g.initial 0 g.events

/-- `param.cancelScheduledValues(t)`: removes every scheduled event with
time `≥ t`. -/
def AudioParam.cancelScheduledValues (g : AudioParam) (t : ℚ) : AudioParam :=
  { g with events := g.events.filter (fun e => decide (e.time < t)) }

/-- `param.setValueAtTime(v, t)`. -/
def AudioParam.setValueAtTime (g : AudioParam) (v t : ℚ) : AudioParam :=
  { g with events := g.events ++ [.setValue v t] }

/-- `param.linearRampToValueAtTime(v, t)`. -/
def AudioParam.linearRampToValueAtTime (g : AudioParam) (v t : ℚ) : AudioParam :=
  { g with events := g.events ++ [.linearRamp v t] }

/-- `baseFreq = 440 * Math.pow(2, (note - 69) / 12)` (line 83). -/
noncomputable def baseFreq (note : ℕ) : ℝ :=
  440 * (2 : ℝ) ^ (((note : ℝ) - 69) / 12)

/-- `freq = baseFreq * params.ratio * (1 + params.detune / 1000)` (line 92). -/
noncomputable def oscFrequency (note : ℕ) (p : OperatorParams) : ℝ :=
  baseFreq note * (p.ratio : ℝ) * (1 + (p.detune : ℝ) / 1000)

/-- Runtime state of one `Operator` instance: oscillator frequency and
waveform, the envelope gain `AudioParam`, and the scheduled `osc.stop`
time, if any. -/
structure OperatorNode where
  freq : ℝ
  waveform : Waveform
  env : AudioParam
  stopAt : Option ℚ

/-- A freshly constructed `Operator` (lines 20-28): oscillator at the Web
Audio defaults (sine, 440 Hz), envelope gain initialised to 0, no stop
scheduled. -/
noncomputable def freshOperator : OperatorNode :=
  { freq := 440
    waveform := .sine
    env := { initial := 0, events := [] }
    stopAt := none }

/-- `Operator.scheduleEnvelope(params, time)` (lines 34-44): cancel
pending events, capture the current gain, ramp to 1.0 over `attack`
seconds, then to `sustain` over the following `decay` seconds. -/
def scheduleEnvelope (p : OperatorParams) (now : ℚ) (g : AudioParam) : AudioParam :=
  let v := g.valueAt now
  let g1 := g.cancelScheduledValues now
  let g2 := g1.setValueAtTime v now
  let g3 := g2.linearRampToValueAtTime 1 (now + p.attack)
  g3.linearRampToValueAtTime p.sustain (now + p.attack + p.decay)

/-- `Operator.triggerRelease(params)` (lines 46-60): cancel pending
events, capture the current gain, ramp linearly to 0 over `release`
seconds, and schedule `osc.stop` at `now + release + 0.5`. -/
def triggerRelease (p : OperatorParams) (now : ℚ) (node : OperatorNode) : OperatorNode :=
  let v := node.env.valueAt now
  let g1 := node.env.cancelScheduledValues now
  let g2 := g1.setValueAtTime v now
  let g3 := g2.linearRampToValueAtTime 0 (now + p.release)
  { node with env := g3, stopAt := some (now + p.release + 1 / 2) }

/-- One connection of a voice's signal graph: a modulator gain node
feeding operator `m`'s output into operator `c`'s `osc.frequency`, or a
carrier gain node feeding operator `c`'s output into the master bus. -/
inductive Conn
  | mod (m : ℕ) (c : ℕ) (gain : ℚ)
  | car (c : ℕ) (gain : ℚ)
deriving DecidableEq

/-- `connectModulator(modIndex, carIndex)` (lines 100-112): skipped when
either operator is off (`opParams[i]?.on` — absent params read as off);
otherwise creates a gain node of value `level * 5000`. -/
def connectModulator (opParams : List OperatorParams) (m c : ℕ) : List Conn :=
  match opParams[m]?, opParams[c]? with
  | some pm, some pc =>
    if pm.on && pc.on then [.mod m c (pm.level * 5000)] else []
  | _, _ => []

/-- `connectCarrier(carIndex)` (lines 115-126): skipped when the operator
is off; otherwise creates a gain node of value `level`. -/
def connectCarrier (opParams : List OperatorParams) (c : ℕ) : List Conn :=
  match opParams[c]? with
  | some pc => if pc.on then [.car c pc.level] else []
  | none => []

/-- The fixed algorithm routing `switch` (lines 128-166); `case 6` and
`default` share the pure-additive body. -/
def route (algorithm : ℤ) (opParams : List OperatorParams) : List Conn :=
  if algorithm = 1 then
    connectModulator opParams 0 1 ++ connectModulator opParams 1 2 ++
      connectModulator opParams 2 3 ++ connectCarrier opParams 3
  else if algorithm = 2 then
    connectModulator opParams 0 1 ++ connectCarrier opParams 1 ++
      connectModulator opParams 2 3 ++ connectCarrier opParams 3
  else if algorithm = 3 then
    connectModulator opParams 0 2 ++ connectModulator opParams 1 2 ++
      connectModulator opParams 2 3 ++ connectCarrier opParams 3
  else if algorithm = 4 then
    connectModulator opParams 0 3 ++ connectModulator opParams 1 3 ++
      connectModulator opParams 2 3 ++ connectCarrier opParams 3
  else if algorithm = 5 then
    connectModulator opParams 0 1 ++ connectCarrier opParams 1 ++
      connectCarrier opParams 2 ++ connectCarrier opParams 3
  else
    connectCarrier opParams 0 ++ connectCarrier opParams 1 ++
      connectCarrier opParams 2 ++ connectCarrier opParams 3

/-- An entry of the topology table: a modulator edge or a carrier. -/
inductive TopoEntry
  | mod (m : ℕ) (c : ℕ)
  | car (c : ℕ)
deriving DecidableEq

/-- Modelled from the spec: the fixed topology table of section 4.3, with
every algorithm value outside 1..6 falling back to algorithm 6's
pure-additive row. -/
def topologyTable (algorithm : ℤ) : List TopoEntry :=
  if algorithm = 1 then [.mod 0 1, .mod 1 2, .mod 2 3, .car 3]
  else if algorithm = 2 then [.mod 0 1, .car 1, .mod 2 3, .car 3]
  else if algorithm = 3 then [.mod 0 2, .mod 1 2, .mod 2 3, .car 3]
  else if algorithm = 4 then [.mod 0 3, .mod 1 3, .mod 2 3, .car 3]
  else if algorithm = 5 then [.mod 0 1, .car 1, .car 2, .car 3]
  else [.car 0, .car 1, .car 2, .car 3]

/-- Interpret one table entry with the guard-and-gain rules of the two
connection primitives. -/
def buildEntry (opParams : List OperatorParams) : TopoEntry → List Conn
  | .mod m c => connectModulator opParams m c
  | .car c => connectCarrier opParams c

/-- Interpret a whole table row. -/
def buildConns (opParams : List OperatorParams) : List TopoEntry → List Conn
  | [] => []
  | e :: rest => buildEntry opParams e ++ buildConns opParams rest

/-- Forget a connection's gain, keeping its shape. -/
def connShape : Conn → TopoEntry
  | .mod m c _ => .mod m c
  | .car c _ => .car c

/-- Select one of four operator parameter records by index. -/
def opAt (p0 p1 p2 p3 : OperatorParams) : Fin 4 → OperatorParams
  | 0 => p0
  | 1 => p1
  | 2 => p2
  | 3 => p3

/-- One live voice as stored in `activeNotes`: the four `Operator`
instances (`noteOperators`) and the gain-node connections built by the
routing switch. -/
structure Voice where
  ops : Fin 4 → OperatorNode
  conns : List Conn

/-- State of one `FMSynth` together with its `AudioContext` and the
module-level `activeNotes` map.  `running` is false while the context is
`suspended`; `detached` holds voices that `noteOff` removed from
`activeNotes` but whose nodes are still sounding in the audio graph. -/
structure SynthState where
  patch : Option Patch
  running : Bool
  masterGainValue : ℚ
  voices : List (ℕ × Voice)
  detached : List Voice

/-- The state after `new FMSynth(context)` on a fresh, still-suspended
context: no patch, master gain 0.5, no active notes. -/
def initState : SynthState :=
  { patch := none
    running := false
    masterGainValue := 1 / 2
    voices := []
    detached := [] }

/-- `FMSynth.setPatch(patch)` (lines 73-75): replaces the patch
reference, touching nothing else. -/
def setPatch (p : Patch) (s : SynthState) : SynthState :=
  { s with patch := some p }

/-- Lines 78-80 of `noteOn`: `if (!this.patch || this.context.state ===
'suspended') this.context.resume()`. -/
def resumeIfNeeded (s : SynthState) : SynthState :=
  if s.patch.isNone || !s.running then { s with running := true } else s

/-- The body of the `noteOperators.forEach` of `noteOn` (lines 88-96):
an enabled operator gets its frequency, waveform and envelope configured;
a disabled one is left at the freshly constructed defaults. -/
noncomputable def mkOperatorNode (now : ℚ) (note : ℕ) (p : OperatorParams) : OperatorNode :=
  if p.on then
    { freq := oscFrequency note p
      waveform := p.waveform
      env := scheduleEnvelope p now freshOperator.env
      stopAt := none }
  else freshOperator

/-- `FMSynth.noteOn(note)` (lines 77-169).  The only failure mode is the
implicit `TypeError` of dereferencing `this.patch` when it is null (or a
missing `opParams[i]` in the forEach); both are modelled as
`Except.error`. -/
noncomputable def noteOn (now : ℚ) (note : ℕ) (s : SynthState) : Except String SynthState :=
  let s1 := resumeIfNeeded s
  if (s1.voices.lookup note).isSome then .ok s1
  else
    match s1.patch with
    | none => .error "TypeError: cannot destructure null patch"
    | some P =>
      match P.operators[0]?, P.operators[1]?, P.operators[2]?, P.operators[3]? with
      | some p0, some p1, some p2, some p3 =>
        let v : Voice :=
          { ops := fun i => mkOperatorNode now note (opAt p0 p1 p2 p3 i)
            conns := route P.algorithm P.operators }
        .ok { s1 with voices := (note, v) :: s1.voices }
      | _, _, _, _ => .error "TypeError: undefined operator params"

/-- The `noteOperators.forEach` body of `noteOff` (lines 175-180): each
operator whose (live-patch) params say `on` gets `triggerRelease` with
those params; the others are left untouched. -/
noncomputable def releaseVoice (p0 p1 p2 p3 : OperatorParams) (now : ℚ) (v : Voice) : Voice :=
  { v with ops := fun i =>
      if (opAt p0 p1 p2 p3 i).on then triggerRelease (opAt p0 p1 p2 p3 i) now (v.ops i)
      else v.ops i }

/-- `FMSynth.noteOff(note)` (lines 171-183): no-op on an unknown note;
otherwise reads the operator params from the LIVE `this.patch`, triggers
a release on every operator whose live params say `on`, and deletes the
note from `activeNotes` (the nodes keep sounding, modelled by moving the
voice to `detached`).  Dereferencing a null patch or a missing
`this.patch.operators[i]` would throw, modelled as `Except.error`. -/
noncomputable def noteOff (now : ℚ) (note : ℕ) (s : SynthState) : Except String SynthState :=
  match s.voices.lookup note with
  | none => .ok s
  | some v =>
    match s.patch with
    | none => .error "TypeError: cannot read operators of null patch"
    | some P =>
      match P.operators[0]?, P.operators[1]?, P.operators[2]?, P.operators[3]? with
      | some p0, some p1, some p2, some p3 =>
        .ok { s with
              voices := s.voices.filter (fun e => e.1 != note)
              detached := releaseVoice p0 p1 p2 p3 now v :: s.detached }
      | _, _, _, _ => .error "TypeError: undefined operator params"

/-- States reachable from `initState` by the engine's public API. -/
inductive Reachable : SynthState → Prop
  | init : Reachable initState
  | step_setPatch {s : SynthState} (P : Patch) :
      Reachable s → Reachable (setPatch P s)
  | step_noteOn {s s' : SynthState} (now : ℚ) (note : ℕ) :
      Reachable s → noteOn now note s = .ok s' → Reachable s'
  | step_noteOff {s s' : SynthState} (now : ℚ) (note : ℕ) :
      Reachable s → noteOff now note s = .ok s' → Reachable s'

/-- A patch object parsed from an imported JSON file: each expected field
may be absent. -/
structure ImportedPatch where
  algorithm : Option ℤ
  masterGain : Option ℚ
  operators : Option (List OperatorParams)
deriving DecidableEq

/-- JS truthiness of the numeric `importedPatch.algorithm` field: absent
(undefined) and 0 are falsy. -/
def truthyNum : Option ℤ → Bool
  | none => false
  | some a => a != 0

/-- `handleImport` (lines 400-413), after the file was read: `parsed` is
`none` when `JSON.parse` threw.  Returns the resulting patch state and
whether an error alert was shown. -/
def handleImport (parsed : Option ImportedPatch) (current : ImportedPatch) :
    ImportedPatch × Bool :=
  match parsed with
  | none => (current, true)
  | some ip =>
    if truthyNum ip.algorithm &&
        (match ip.operators with
         | some ops => ops.length == 4
         | none => false) then
      (ip, false)
    else (current, true)

/-- A concrete all-on operator parameter record with the given release
time, used for concrete runs. -/
def exOp (rel : ℚ) : OperatorParams :=
  { «on» := true, ratio := 1, detune := 0, level := 1 / 2, attack := 1,
    decay := 1, sustain := 1 / 2, release := rel, waveform := .sine }

/-- `exOp` with `on := false`: a disabled operator. -/
def offOp : OperatorParams :=
  { exOp (1 / 2) with «on» := false }

/-- A concrete patch whose four operators all have release time 1/2. -/
def exPatchA : Patch :=
  { algorithm := 6, masterGain := 1 / 2,
    operators := [exOp (1 / 2), exOp (1 / 2), exOp (1 / 2), exOp (1 / 2)] }

/-- `exPatchA` after an edit that changes every release time to 2. -/
def exPatchB : Patch :=
  { algorithm := 6, masterGain := 1 / 2,
    operators := [exOp 2, exOp 2, exOp 2, exOp 2] }

/-- The concrete run refuting the snapshot reading of `noteOff`: set
patch A (release 1/2), start note 60 at time 0, edit the patch to B
(release 2) while the note sounds, release the note at time 1, and
observe the final scheduled envelope event of operator 0 of the released
voice. -/
noncomputable def releaseProbe : Option (Option ParamEvent) :=
  (noteOn 0 60 (setPatch exPatchA initState)).toOption.bind fun s2 =>
    (noteOff 1 60 (setPatch exPatchB s2)).toOption.bind fun s4 =>
      s4.detached.head?.map fun v => (v.ops 0).env.events.getLast?

/-- A voice whose four operators are all untouched fresh nodes. -/
noncomputable def plainVoice : Voice :=
  { ops := fun _ => freshOperator, conns := [] }

/-- A concrete state holding one live voice for note 60 under the live
patch `exPatchB`. -/
noncomputable def exState : SynthState :=
  { patch := some exPatchB
    running := true
    masterGainValue := 1 / 2
    voices := [(60, plainVoice)]
    detached := [] }

/-- A concrete well-formed imported patch object. -/
def exImported : ImportedPatch :=
  { algorithm := some 1
    masterGain := none
    operators := some [exOp 2, exOp 2, exOp 2, exOp 2] }

end FMSynthApp

namespace FMSynthApp

theorem resumeIfNeeded_patch (s : SynthState) : (resumeIfNeeded s).patch = s.patch := by
  unfold resumeIfNeeded; split <;> rfl

theorem resumeIfNeeded_voices (s : SynthState) : (resumeIfNeeded s).voices = s.voices := by
  unfold resumeIfNeeded; split <;> rfl

theorem resumeIfNeeded_detached (s : SynthState) : (resumeIfNeeded s).detached = s.detached := by
  unfold resumeIfNeeded; split <;> rfl

theorem resumeIfNeeded_masterGainValue (s : SynthState) :
    (resumeIfNeeded s).masterGainValue = s.masterGainValue := by
  unfold resumeIfNeeded; split <;> rfl

theorem resumeIfNeeded_eq_self (s : SynthState) (h : s.running = true) :
    resumeIfNeeded s = s := by
  unfold resumeIfNeeded
  split
  · cases s; simp_all
  · rfl

theorem resumeIfNeeded_running (s : SynthState) : (resumeIfNeeded s).running = true := by
  unfold resumeIfNeeded
  split
  · rfl
  · rename_i h
    simp only [Bool.or_eq_true, Option.isNone_iff_eq_none, Bool.not_eq_true'] at h
    push_neg at h
    simpa using h.2

theorem noteOn_ok_cases (now : ℚ) (note : ℕ) (s s' : SynthState)
    (h : noteOn now note s = .ok s') :
    (s' = resumeIfNeeded s ∧ (s.voices.lookup note).isSome = true) ∨
    (∃ P p0 p1 p2 p3, s.patch = some P ∧ s.voices.lookup note = none ∧
      P.operators[0]? = some p0 ∧ P.operators[1]? = some p1 ∧
      P.operators[2]? = some p2 ∧ P.operators[3]? = some p3 ∧
      s'.voices = (note,
        { ops := fun i => mkOperatorNode now note (opAt p0 p1 p2 p3 i)
          conns := route P.algorithm P.operators }) :: s.voices ∧
      s'.patch = s.patch ∧ s'.detached = s.detached ∧
      s'.masterGainValue = s.masterGainValue ∧ s'.running = true) := by
  by_cases hl : (s.voices.lookup note).isSome = true
  · left
    simp only [noteOn, resumeIfNeeded_voices] at h
    rw [if_pos hl] at h
    exact ⟨(Except.ok.inj h).symm, hl⟩
  · right
    have hl' : s.voices.lookup note = none := by
      cases hcase : s.voices.lookup note <;> simp [hcase] at hl ⊢
    rcases hP : s.patch with _ | P
    · simp [noteOn, resumeIfNeeded_voices, resumeIfNeeded_patch, hl', hP] at h
    rcases h0 : P.operators[0]? with _ | p0
    · simp [noteOn, resumeIfNeeded_voices, resumeIfNeeded_patch, hl', hP, h0] at h
    rcases h1 : P.operators[1]? with _ | p1
    · simp [noteOn, resumeIfNeeded_voices, resumeIfNeeded_patch, hl', hP, h0, h1] at h
    rcases h2 : P.operators[2]? with _ | p2
    · simp [noteOn, resumeIfNeeded_voices, resumeIfNeeded_patch, hl', hP, h0, h1, h2] at h
    rcases h3 : P.operators[3]? with _ | p3
    · simp [noteOn, resumeIfNeeded_voices, resumeIfNeeded_patch, hl', hP, h0, h1, h2, h3] at h
    simp only [noteOn, resumeIfNeeded_voices, resumeIfNeeded_patch, hl', hP, h0, h1, h2, h3,
      Option.isSome_none, Bool.false_eq_true, if_false, Except.ok.injEq] at h
    refine ⟨P, p0, p1, p2, p3, rfl, hl', h0, h1, h2, h3, ?_, ?_, ?_, ?_, ?_⟩ <;>
      rw [← h] <;>
      simp [resumeIfNeeded_voices, resumeIfNeeded_patch, hP, resumeIfNeeded_detached,
        resumeIfNeeded_masterGainValue, resumeIfNeeded_running]

theorem lookup_none_not_mem {β : Type} (a : ℕ) (l : List (ℕ × β))
    (h : l.lookup a = none) : a ∉ l.map Prod.fst := by
  induction l with
  | nil => simp
  | cons e t ih =>
    obtain ⟨k, b⟩ := e
    simp only [List.lookup] at h
    rcases hk : (a == k) with _ | _
    · rw [hk] at h
      simp only [List.map_cons, List.mem_cons]
      rintro (rfl | hm)
      · simp at hk
      · exact ih h hm
    · rw [hk] at h
      simp at h

theorem lookup_isSome_mem {β : Type} (a : ℕ) (l : List (ℕ × β))
    (h : (l.lookup a).isSome = true) : a ∈ l.map Prod.fst := by
  induction l with
  | nil => simp [List.lookup] at h
  | cons e t ih =>
    obtain ⟨k, b⟩ := e
    simp only [List.lookup] at h
    rcases hk : (a == k) with _ | _
    · rw [hk] at h
      simp only [List.map_cons, List.mem_cons]
      exact Or.inr (ih h)
    · simp only [List.map_cons, List.mem_cons]
      exact Or.inl (by simpa using hk)

theorem noteOff_ok_cases (now : ℚ) (note : ℕ) (s s' : SynthState)
    (h : noteOff now note s = .ok s') :
    (s' = s ∧ s.voices.lookup note = none) ∨
    (∃ v P p0 p1 p2 p3, s.voices.lookup note = some v ∧ s.patch = some P ∧
      P.operators[0]? = some p0 ∧ P.operators[1]? = some p1 ∧
      P.operators[2]? = some p2 ∧ P.operators[3]? = some p3 ∧
      s' = { s with
             voices := s.voices.filter (fun e => e.1 != note)
             detached := releaseVoice p0 p1 p2 p3 now v :: s.detached }) := by
  rcases hv : s.voices.lookup note with _ | v
  · left
    simp only [noteOff, hv] at h
    exact ⟨(Except.ok.inj h).symm, rfl⟩
  right
  rcases hP : s.patch with _ | P
  · simp [noteOff, hv, hP] at h
  rcases h0 : P.operators[0]? with _ | p0
  · simp [noteOff, hv, hP, h0] at h
  rcases h1 : P.operators[1]? with _ | p1
  · simp [noteOff, hv, hP, h0, h1] at h
  rcases h2 : P.operators[2]? with _ | p2
  · simp [noteOff, hv, hP, h0, h1, h2] at h
  rcases h3 : P.operators[3]? with _ | p3
  · simp [noteOff, hv, hP, h0, h1, h2, h3] at h
  simp only [noteOff, hv, hP, h0, h1, h2, h3, Except.ok.injEq] at h
  exact ⟨v, P, p0, p1, p2, p3, rfl, rfl, h0, h1, h2, h3, h.symm⟩

theorem reachable_keys_nodup (s : SynthState) (h : Reachable s) :
    (s.voices.map Prod.fst).Nodup := by
  induction h with
  | init => simp [initState]
  | step_setPatch P _ ih => simpa [setPatch] using ih
  | step_noteOn now note _ hok ih =>
    rcases noteOn_ok_cases _ _ _ _ hok with ⟨rfl, -⟩ |
      ⟨P, p0, p1, p2, p3, hP, hl, _, _, _, _, hv, -⟩
    · simpa [resumeIfNeeded_voices] using ih
    · rw [hv]
      simp only [List.map_cons]
      exact List.nodup_cons.mpr ⟨lookup_none_not_mem _ _ hl, ih⟩
  | step_noteOff now note _ hok ih =>
    rcases noteOff_ok_cases _ _ _ _ hok with ⟨rfl, -⟩ |
      ⟨v, P, p0, p1, p2, p3, hv, hP, _, _, _, _, hs'⟩
    · exact ih
    · rw [hs']
      exact ((List.filter_sublist _).map Prod.fst).nodup ih

theorem noteOn_twice (now now' : ℚ) (note : ℕ) (s s' : SynthState)
    (h : noteOn now note s = .ok s') : noteOn now' note s' = .ok s' := by
  have hrun : s'.running = true := by
    rcases noteOn_ok_cases _ _ _ _ h with ⟨rfl, -⟩ |
      ⟨P, p0, p1, p2, p3, -, -, -, -, -, -, -, -, -, -, hr⟩
    · exact resumeIfNeeded_running s
    · exact hr
  have hl : (s'.voices.lookup note).isSome = true := by
    rcases noteOn_ok_cases _ _ _ _ h with ⟨rfl, hl⟩ |
      ⟨P, p0, p1, p2, p3, -, -, -, -, -, -, hv, -⟩
    · rw [resumeIfNeeded_voices]; exact hl
    · rw [hv]; simp [List.lookup]
  simp only [noteOn]
  rw [resumeIfNeeded_eq_self s' hrun, if_pos hl]

end FMSynthApp

namespace FMSynthApp

theorem route_eq_buildConns (alg : ℤ) (l : List OperatorParams) :
    route alg l = buildConns l (topologyTable alg) := by
  unfold route topologyTable
  split_ifs <;> simp [buildConns, buildEntry, List.append_assoc]

theorem topologyTable_fallback (alg : ℤ) (h : ¬(1 ≤ alg ∧ alg ≤ 6)) :
    topologyTable alg = topologyTable 6 := by
  unfold topologyTable
  split_ifs <;> first | rfl | omega

theorem route_fallback (alg : ℤ) (l : List OperatorParams) (h : ¬(1 ≤ alg ∧ alg ≤ 6)) :
    route alg l = route 6 l := by
  unfold route
  split_ifs <;> first | rfl | omega

theorem mem_connectModulator (l : List OperatorParams) (m c : ℕ) (x : Conn)
    (hx : x ∈ connectModulator l m c) :
    ∃ pm pc, l[m]? = some pm ∧ l[c]? = some pc ∧ pm.on = true ∧ pc.on = true ∧
      x = .mod m c (pm.level * 5000) := by
  rcases hm : l[m]? with _ | pm
  · simp [connectModulator, hm] at hx
  rcases hc : l[c]? with _ | pc
  · simp [connectModulator, hm, hc] at hx
  by_cases hon : (pm.on && pc.on) = true
  · simp only [connectModulator, hm, hc, hon, if_true, List.mem_singleton] at hx
    obtain ⟨hpm, hpc⟩ := Bool.and_eq_true_iff.mp hon
    exact ⟨pm, pc, rfl, rfl, hpm, hpc, hx⟩
  · simp [connectModulator, hm, hc, hon] at hx

theorem mem_connectCarrier (l : List OperatorParams) (c : ℕ) (x : Conn)
    (hx : x ∈ connectCarrier l c) :
    ∃ pc, l[c]? = some pc ∧ pc.on = true ∧ x = .car c pc.level := by
  rcases hc : l[c]? with _ | pc
  · simp [connectCarrier, hc] at hx
  by_cases hon : pc.on = true
  · simp only [connectCarrier, hc, hon, if_true, List.mem_singleton] at hx
    exact ⟨pc, rfl, hon, hx⟩
  · simp [connectCarrier, hc, hon] at hx

theorem mem_buildConns (l : List OperatorParams) (entries : List TopoEntry) (x : Conn)
    (hx : x ∈ buildConns l entries) : ∃ e ∈ entries, x ∈ buildEntry l e := by
  induction entries with
  | nil => simp [buildConns] at hx
  | cons e t ih =>
    simp only [buildConns, List.mem_append] at hx
    rcases hx with hx | hx
    · exact ⟨e, List.mem_cons_self e t, hx⟩
    · obtain ⟨e', he', hx'⟩ := ih hx
      exact ⟨e', List.mem_cons_of_mem e he', hx'⟩

theorem mem_route (alg : ℤ) (l : List OperatorParams) (x : Conn) (hx : x ∈ route alg l) :
    (∃ m c pm pc, l[m]? = some pm ∧ l[c]? = some pc ∧ pm.on = true ∧ pc.on = true ∧
       x = .mod m c (pm.level * 5000)) ∨
    (∃ c pc, l[c]? = some pc ∧ pc.on = true ∧ x = .car c pc.level) := by
  rw [route_eq_buildConns] at hx
  obtain ⟨e, -, hxe⟩ := mem_buildConns l _ x hx
  cases e with
  | mod m c =>
    obtain ⟨pm, pc, h1, h2, h3, h4, h5⟩ := mem_connectModulator l m c x hxe
    exact Or.inl ⟨m, c, pm, pc, h1, h2, h3, h4, h5⟩
  | car c =>
    obtain ⟨pc, h1, h2, h3⟩ := mem_connectCarrier l c x hxe
    exact Or.inr ⟨c, pc, h1, h2, h3⟩


end FMSynthApp

namespace FMSynthApp

theorem route_shape_all_on (alg : ℤ) (p0 p1 p2 p3 : OperatorParams)
    (h0 : p0.on = true) (h1 : p1.on = true) (h2 : p2.on = true) (h3 : p3.on = true) :
    (route alg [p0, p1, p2, p3]).map connShape = topologyTable alg := by
  unfold route topologyTable
  split_ifs <;>
    simp [connectModulator, connectCarrier, connShape, h0, h1, h2, h3]

/-- C4: for every patch the routing switch builds exactly the guarded
interpretation of the fixed topology table row for its algorithm, every
algorithm value outside 1..6 routes identically to algorithm 6, and with
all four operators enabled the built connections are shape-for-shape the
table row. -/
theorem routing_matches_topology_table (alg : ℤ) (l : List OperatorParams) :
    route alg l = buildConns l (topologyTable alg) ∧
    (¬(1 ≤ alg ∧ alg ≤ 6) → route alg l = route 6 l) ∧
    (∀ p0 p1 p2 p3, l = [p0, p1, p2, p3] → p0.on = true → p1.on = true →
      p2.on = true → p3.on = true →
      (route alg l).map connShape = topologyTable alg) :=
  ⟨route_eq_buildConns alg l, route_fallback alg l,
    fun p0 p1 p2 p3 hl h0 h1 h2 h3 =>
      hl ▸ route_shape_all_on alg p0 p1 p2 p3 h0 h1 h2 h3⟩

theorem routing_matches_topology_table_witness :
    (route 7 exPatchA.operators).map connShape = topologyTable 7 :=
  (routing_matches_topology_table 7 exPatchA.operators).2.2
    (exOp (1 / 2)) (exOp (1 / 2)) (exOp (1 / 2)) (exOp (1 / 2)) rfl rfl rfl rfl rfl

/-- C5: every modulator connection in the built graph has both endpoint
operators enabled and every carrier connection has its operator enabled
(disabled connections are absent, not zero); in particular algorithm 1
with operator index 2 disabled keeps only the 0 to 1 modulator edge and
the carrier 3. -/
theorem off_connections_omitted (alg : ℤ) (l : List OperatorParams) :
    (∀ m c g, Conn.mod m c g ∈ route alg l →
      ∃ pm pc, l[m]? = some pm ∧ l[c]? = some pc ∧ pm.on = true ∧ pc.on = true) ∧
    (∀ c g, Conn.car c g ∈ route alg l → ∃ pc, l[c]? = some pc ∧ pc.on = true) ∧
    (∀ p0 p1 p3, p0.on = true → p1.on = true → p3.on = true → ∀ p2, p2.on = false →
      route 1 [p0, p1, p2, p3] =
        [Conn.mod 0 1 (p0.level * 5000), Conn.car 3 p3.level]) := by
  refine ⟨?_, ?_, ?_⟩
  · intro m c g hx
    rcases mem_route alg l _ hx with ⟨m', c', pm, pc, ha, hb, hc, hd, he⟩ | ⟨c', pc, -, -, he⟩
    · obtain ⟨rfl, rfl, -⟩ := Conn.mod.inj he
      exact ⟨pm, pc, ha, hb, hc, hd⟩
    · exact absurd he (by simp)
  · intro c g hx
    rcases mem_route alg l _ hx with ⟨m', c', pm, pc, -, -, -, -, he⟩ | ⟨c', pc, ha, hb, he⟩
    · exact absurd he (by simp)
    · obtain ⟨rfl, -⟩ := Conn.car.inj he
      exact ⟨pc, ha, hb⟩
  · intro p0 p1 p3 h0 h1 h3 p2 h2
    simp [route, connectModulator, connectCarrier, h0, h1, h2, h3]

theorem off_connections_omitted_witness :
    route 1 [exOp 2, exOp 2, offOp, exOp 2] =
      [Conn.mod 0 1 ((exOp 2).level * 5000), Conn.car 3 (exOp 2).level] :=
  (off_connections_omitted 1 [exOp 2, exOp 2, offOp, exOp 2]).2.2
    (exOp 2) (exOp 2) (exOp 2) rfl rfl rfl offOp rfl

/-- C6: every modulator gain node built by the router carries the
modulator's `level * 5000`, and every carrier gain node carries the
carrier's `level` exactly. -/
theorem connection_gains (alg : ℤ) (l : List OperatorParams) :
    (∀ m c g, Conn.mod m c g ∈ route alg l →
      ∃ pm, l[m]? = some pm ∧ g = pm.level * 5000) ∧
    (∀ c g, Conn.car c g ∈ route alg l → ∃ pc, l[c]? = some pc ∧ g = pc.level) := by
  constructor
  · intro m c g hx
    rcases mem_route alg l _ hx with ⟨m', c', pm, pc, ha, hb, -, -, he⟩ | ⟨c', pc, -, -, he⟩
    · obtain ⟨rfl, rfl, rfl⟩ := Conn.mod.inj he
      exact ⟨pm, ha, rfl⟩
    · exact absurd he (by simp)
  · intro c g hx
    rcases mem_route alg l _ hx with ⟨m', c', pm, pc, -, -, -, -, he⟩ | ⟨c', pc, ha, -, he⟩
    · exact absurd he (by simp)
    · obtain ⟨rfl, rfl⟩ := Conn.car.inj he
      exact ⟨pc, ha, rfl⟩

theorem connection_gains_witness :
    ∃ pm, (exPatchA.operators)[0]? = some pm ∧ (exOp (1 / 2)).level * 5000 = pm.level * 5000 :=
  (connection_gains 1 exPatchA.operators).1 0 1 ((exOp (1 / 2)).level * 5000)
    (by simp [route, connectModulator, exPatchA, exOp])

end FMSynthApp

namespace FMSynthApp

theorem noteOn_ok_lookup (now : ℚ) (note : ℕ) (s s' : SynthState)
    (h : noteOn now note s = .ok s') : (s'.voices.lookup note).isSome = true := by
  rcases noteOn_ok_cases _ _ _ _ h with ⟨rfl, hl⟩ |
    ⟨P, p0, p1, p2, p3, -, -, -, -, -, -, hv, -⟩
  · rw [resumeIfNeeded_voices]; exact hl
  · rw [hv]; simp [List.lookup]

/-- C2: in every reachable state at most one live voice exists per note
number, and a second `noteOn` with no intervening `noteOff` is an exact
no-op that leaves the registry with exactly one voice for that note. -/
theorem at_most_one_voice_per_note (s : SynthState) (hs : Reachable s) :
    (∀ n, (s.voices.map Prod.fst).count n ≤ 1) ∧
    (∀ now now' n s', noteOn now n s = .ok s' →
      noteOn now' n s' = .ok s' ∧ (s'.voices.map Prod.fst).count n = 1) := by
  constructor
  · exact fun n => List.nodup_iff_count_le_one.mp (reachable_keys_nodup s hs) n
  · intro now now' n s' h
    refine ⟨noteOn_twice now now' n s s' h, ?_⟩
    exact List.count_eq_one_of_mem
      (reachable_keys_nodup s' (Reachable.step_noteOn now n hs h))
      (lookup_isSome_mem n s'.voices (noteOn_ok_lookup now n s s' h))

theorem at_most_one_voice_per_note_witness :
    ((setPatch exPatchA initState).voices.map Prod.fst).count 60 ≤ 1 :=
  (at_most_one_voice_per_note (setPatch exPatchA initState)
    (Reachable.step_setPatch exPatchA Reachable.init)).1 60

/-- C8: `noteOff` on a note with no live voice raises nothing and changes
nothing. -/
theorem noteOff_unknown_note_noop (now : ℚ) (note : ℕ) (s : SynthState)
    (h : s.voices.lookup note = none) : noteOff now note s = .ok s := by
  simp only [noteOff, h]

theorem noteOff_unknown_note_noop_witness :
    noteOff 0 61 (setPatch exPatchA initState) = .ok (setPatch exPatchA initState) :=
  noteOff_unknown_note_noop 0 61 (setPatch exPatchA initState) rfl

/-- C10: calling `noteOn` before any `setPatch` on a note with no live
voice is not absorbed: the null-patch guard only resumes the context and
the subsequent dereference of the null patch throws. -/
theorem noteOn_null_patch_throws (now : ℚ) (note : ℕ) (s : SynthState)
    (hp : s.patch = none) (hv : s.voices.lookup note = none) :
    noteOn now note s = .error "TypeError: cannot destructure null patch" := by
  simp only [noteOn, resumeIfNeeded_voices, resumeIfNeeded_patch, hp, hv,
    Option.isSome_none, Bool.false_eq_true, if_false]

theorem noteOn_null_patch_throws_witness :
    noteOn 0 60 initState = .error "TypeError: cannot destructure null patch" :=
  noteOn_null_patch_throws 0 60 initState rfl rfl

end FMSynthApp

namespace FMSynthApp

theorem baseFreq_69 : baseFreq 69 = 440 := by
  have h : (((69 : ℕ) : ℝ) - 69) / 12 = 0 := by norm_num
  rw [baseFreq, h, Real.rpow_zero]
  norm_num

theorem baseFreq_81 : baseFreq 81 = 880 := by
  have h : (((81 : ℕ) : ℝ) - 69) / 12 = 1 := by norm_num
  rw [baseFreq, h, Real.rpow_one]
  norm_num

/-- C3: for every note and every enabled operator, the oscillator
frequency set at `noteOn` is `440 * 2 ^ ((note - 69) / 12) * ratio *
(1 + detune / 1000)`; the base frequency of note 69 is 440 and of note
81 is 880. -/
theorem noteOn_frequency (now : ℚ) (note : ℕ) (hnote : note ≤ 127)
    (s : SynthState) (P : Patch) (p0 p1 p2 p3 : OperatorParams)
    (hP : s.patch = some P) (hl : s.voices.lookup note = none)
    (hops : P.operators = [p0, p1, p2, p3]) (i : Fin 4)
    (hon : (opAt p0 p1 p2 p3 i).on = true) :
    (∃ s' v, noteOn now note s = .ok s' ∧ s'.voices.lookup note = some v ∧
      (v.ops i).freq = 440 * (2 : ℝ) ^ (((note : ℝ) - 69) / 12) *
        ((opAt p0 p1 p2 p3 i).ratio : ℝ) *
        (1 + ((opAt p0 p1 p2 p3 i).detune : ℝ) / 1000)) ∧
    baseFreq 69 = 440 ∧ baseFreq 81 = 880 := by
  have h0 : P.operators[0]? = some p0 := by rw [hops]; rfl
  have h1 : P.operators[1]? = some p1 := by rw [hops]; rfl
  have h2 : P.operators[2]? = some p2 := by rw [hops]; rfl
  have h3 : P.operators[3]? = some p3 := by rw [hops]; rfl
  refine ⟨⟨{ resumeIfNeeded s with voices :=
      (note, { ops := fun j => mkOperatorNode now note (opAt p0 p1 p2 p3 j)
               conns := route P.algorithm P.operators }) :: s.voices },
    { ops := fun j => mkOperatorNode now note (opAt p0 p1 p2 p3 j)
      conns := route P.algorithm P.operators }, ?_, ?_, ?_⟩, baseFreq_69, baseFreq_81⟩
  · simp only [noteOn, resumeIfNeeded_voices, resumeIfNeeded_patch, hl, hP, h0, h1, h2, h3,
      Option.isSome_none, Bool.false_eq_true, if_false]
  · simp [List.lookup]
  · simp only [mkOperatorNode, hon, if_true, oscFrequency, baseFreq]

theorem noteOn_frequency_witness :
    (∃ s' v, noteOn 0 69 (setPatch exPatchA initState) = .ok s' ∧
      s'.voices.lookup 69 = some v ∧
      (v.ops 0).freq = 440 * (2 : ℝ) ^ ((((69 : ℕ) : ℝ) - 69) / 12) *
        ((opAt (exOp (1 / 2)) (exOp (1 / 2)) (exOp (1 / 2)) (exOp (1 / 2)) 0).ratio : ℝ) *
        (1 + ((opAt (exOp (1 / 2)) (exOp (1 / 2)) (exOp (1 / 2)) (exOp (1 / 2)) 0).detune : ℝ) / 1000)) ∧
    baseFreq 69 = 440 ∧ baseFreq 81 = 880 :=
  noteOn_frequency 0 69 (by norm_num) (setPatch exPatchA initState) exPatchA
    (exOp (1 / 2)) (exOp (1 / 2)) (exOp (1 / 2)) (exOp (1 / 2)) rfl rfl rfl 0 rfl

theorem scheduleEnvelope_fresh (p : OperatorParams) :
    scheduleEnvelope p 0 { initial := 0, events := [] } =
      { initial := 0
        events := [.setValue 0 0, .linearRamp 1 p.attack,
          .linearRamp p.sustain (p.attack + p.decay)] } := by
  simp [scheduleEnvelope, AudioParam.valueAt, valueFrom,
    AudioParam.cancelScheduledValues, AudioParam.setValueAtTime,
    AudioParam.linearRampToValueAtTime, List.filter]

theorem valueAt_mid_attack (p : OperatorParams) (t : ℚ) (h0 : 0 < t) (hta : t < p.attack) :
    AudioParam.valueAt
      { initial := 0
        events := [.setValue 0 0, .linearRamp 1 p.attack,
          .linearRamp p.sustain (p.attack + p.decay)] } t = t / p.attack := by
  simp only [AudioParam.valueAt, valueFrom, ParamEvent.time, ParamEvent.value]
  rw [if_neg (not_lt.mpr h0.le), if_pos hta, if_neg (not_le.mpr h0)]
  simp

/-- C9: `triggerRelease` cancels the not-yet-reached breakpoints,
captures the current gain, and ramps linearly from it to 0 over the
release time; triggered mid-attack the ramp starts from the partial gain
`t / attack`, strictly between 0 and 1. -/
theorem release_mid_attack (p : OperatorParams) (t : ℚ)
    (h0 : 0 < t) (hta : t < p.attack) (hd : 0 ≤ p.decay) :
    (scheduleEnvelope p 0 { initial := 0, events := [] }).valueAt t = t / p.attack ∧
    (triggerRelease p t { freshOperator with
        env := scheduleEnvelope p 0 { initial := 0, events := [] } }).env.events =
      [.setValue 0 0, .setValue (t / p.attack) t, .linearRamp 0 (t + p.release)] ∧
    0 < t / p.attack ∧ t / p.attack < 1 := by
  have ha : 0 < p.attack := h0.trans hta
  have hval : (scheduleEnvelope p 0 { initial := 0, events := [] }).valueAt t = t / p.attack := by
    rw [scheduleEnvelope_fresh]
    exact valueAt_mid_attack p t h0 hta
  refine ⟨hval, ?_, div_pos h0 ha, (div_lt_one ha).mpr hta⟩
  rw [triggerRelease]
  simp only [scheduleEnvelope_fresh] at hval ⊢
  rw [hval]
  simp only [AudioParam.cancelScheduledValues, AudioParam.setValueAtTime,
    AudioParam.linearRampToValueAtTime, List.filter, ParamEvent.time]
  rw [decide_eq_true (show (0 : ℚ) < t from h0),
    decide_eq_false (not_lt.mpr hta.le),
    decide_eq_false (not_lt.mpr (hta.le.trans (by linarith)))]
  rfl


theorem release_mid_attack_witness :
    (scheduleEnvelope (exOp (1 / 2)) 0 { initial := 0, events := [] }).valueAt (1 / 2) =
      (1 / 2) / (exOp (1 / 2)).attack ∧
    (triggerRelease (exOp (1 / 2)) (1 / 2) { freshOperator with
        env := scheduleEnvelope (exOp (1 / 2)) 0 { initial := 0, events := [] } }).env.events =
      [.setValue 0 0, .setValue ((1 / 2) / (exOp (1 / 2)).attack) (1 / 2),
        .linearRamp 0 ((1 / 2) + (exOp (1 / 2)).release)] ∧
    0 < (1 / 2) / (exOp (1 / 2)).attack ∧ (1 / 2) / (exOp (1 / 2)).attack < 1 :=
  release_mid_attack (exOp (1 / 2)) (1 / 2) (by norm_num)
    (by norm_num [exOp]) (by norm_num [exOp])

/-- C7: import accepts a parsed patch only when `algorithm` is truthy and
`operators` is present with length exactly 4; every rejection (including
`operators` missing and unparseable JSON) reports an error and leaves the
current patch completely unchanged. -/
theorem import_validation :
    (∀ ip cur, (handleImport (some ip) cur).2 = false →
      ip.algorithm.isSome = true ∧ ∃ ops, ip.operators = some ops ∧ ops.length = 4) ∧
    (∀ parsed cur, (handleImport parsed cur).2 = true → (handleImport parsed cur).1 = cur) ∧
    (∀ cur, handleImport
      (some { algorithm := some 1, masterGain := none, operators := none }) cur = (cur, true)) ∧
    (∀ cur, handleImport none cur = (cur, true)) := by
  refine ⟨?_, ?_, ?_, ?_⟩
  · intro ip cur h
    by_cases hcond : (truthyNum ip.algorithm &&
        (match ip.operators with
         | some ops => ops.length == 4
         | none => false)) = true
    · obtain ⟨halg, hops⟩ := Bool.and_eq_true_iff.mp hcond
      constructor
      · cases halgo : ip.algorithm with
        | none => rw [halgo] at halg; simp [truthyNum] at halg
        | some a => rfl
      · cases hopso : ip.operators with
        | none => rw [hopso] at hops; simp at hops
        | some ops =>
          rw [hopso] at hops
          exact ⟨ops, rfl, by simpa using hops⟩
    · rw [handleImport] at h
      rw [if_neg hcond] at h
      simp at h
  · intro parsed cur h
    cases parsed with
    | none => rfl
    | some ip =>
      by_cases hcond : (truthyNum ip.algorithm &&
          (match ip.operators with
           | some ops => ops.length == 4
           | none => false)) = true
      · rw [handleImport] at h
        rw [if_pos hcond] at h
        simp at h
      · rw [handleImport, if_neg hcond]
  · intro cur
    rfl
  · intro cur
    rfl

theorem import_validation_witness :
    exImported.algorithm.isSome = true ∧
      ∃ ops, exImported.operators = some ops ∧ ops.length = 4 :=
  import_validation.1 exImported exImported rfl

/-- C1 counterexample: under patch A (release 1/2) note 60 starts at time
0; the patch is edited to B (release 2) while the note sounds; `noteOff`
at time 1 schedules the release ramp to end at time 1 + 2 = 3, the LIVE
patch's release, not at 1 + 1/2 = 3/2 as the snapshot reading predicts. -/
theorem patch_snapshot_counterexample :
    releaseProbe = some (some (.linearRamp 0 3)) ∧
    releaseProbe ≠ some (some (.linearRamp 0 (3 / 2))) := by
  have h : releaseProbe = some (some (.linearRamp 0 3)) := by
    norm_num [releaseProbe, noteOn, noteOff, setPatch, initState, resumeIfNeeded,
      mkOperatorNode, exPatchA, exPatchB, exOp, scheduleEnvelope, triggerRelease,
      releaseVoice, AudioParam.valueAt, valueFrom, AudioParam.cancelScheduledValues,
      AudioParam.setValueAtTime, AudioParam.linearRampToValueAtTime, freshOperator,
      opAt, route, connectCarrier, connectModulator, List.lookup, List.filter,
      Except.toOption, Option.bind, ParamEvent.time, ParamEvent.value]
  refine ⟨h, ?_⟩
  rw [h]
  simp only [ne_eq, Option.some.injEq, ParamEvent.linearRamp.injEq]
  norm_num

/-- C1 amended: parameters applied at `noteOn` (frequency, waveform,
envelope schedule, routing gains) are fixed in the voice's nodes and
`setPatch` never alters an existing voice; but `noteOff` reads the LIVE
patch at note-off time to decide which operators get a release and with
what release time. -/
theorem noteOff_uses_live_patch :
    (∀ (P : Patch) (s : SynthState),
      (setPatch P s).voices = s.voices ∧ (setPatch P s).detached = s.detached) ∧
    (∀ (now : ℚ) (note : ℕ) (s : SynthState) (v : Voice) (P : Patch)
      (p0 p1 p2 p3 : OperatorParams),
      s.voices.lookup note = some v → s.patch = some P →
      P.operators = [p0, p1, p2, p3] →
      noteOff now note s = .ok { s with
        voices := s.voices.filter (fun e => e.1 != note)
        detached := releaseVoice p0 p1 p2 p3 now v :: s.detached }) := by
  refine ⟨fun P s => ⟨rfl, rfl⟩, ?_⟩
  intro now note s v P p0 p1 p2 p3 hv hP hops
  have h0 : P.operators[0]? = some p0 := by rw [hops]; rfl
  have h1 : P.operators[1]? = some p1 := by rw [hops]; rfl
  have h2 : P.operators[2]? = some p2 := by rw [hops]; rfl
  have h3 : P.operators[3]? = some p3 := by rw [hops]; rfl
  simp only [noteOff, hv, hP, h0, h1, h2, h3]

theorem noteOff_uses_live_patch_witness :
    noteOff 0 60 exState = .ok { exState with
      voices := exState.voices.filter (fun e => e.1 != 60)
      detached := releaseVoice (exOp 2) (exOp 2) (exOp 2) (exOp 2) 0 plainVoice
        :: exState.detached } :=
  noteOff_uses_live_patch.2 0 60 exState plainVoice exPatchB
    (exOp 2) (exOp 2) (exOp 2) (exOp 2) rfl rfl rfl


end FMSynthApp
